import Mathlib

/-!
# Verification of `tasks` (github.com/invopop/tasks)

A shallow embedding of `tasks.go`: the `Info` record with `Version` and
`LDFlags`, and the `Release` / `generateVersion` protocol over an external
command collaborator.

Go strings are embedded as Lean `String`; `fmt.Sprintf` is embedded as a small
interpreter of the format string; the external `git` process, the process
environment and the clock are explicit parameters. The mage helpers `sh.Run`
and `sh.Output` are embedded with the `os.Expand` pass they apply to the command
and its arguments, and `sh.Output` with its removal of one trailing line feed.
-/

namespace Tasks

/-! ## fmt.Sprintf on string operands -/

/-- The operands left over after the format string has been consumed, each as
`string=value`. -/
def extraArgs : List String → List String
  | [] => []
  | a :: rest => ("string=" ++ a) :: extraArgs rest

/-- What Go appends for left-over operands: nothing when there is none,
`%!(EXTRA string=a, string=b)` otherwise. -/
def extraSuffix (args : List String) : List Char :=
  match args with
  | [] => []
  | _ :: _ => ("%!(EXTRA " ++ ", ".intercalate (extraArgs args) ++ ")").data

/-- The interpretation loop of `fmt.Sprintf` over the characters of the format,
for string operands. The verbs `%s` and `%v` print the operand unchanged, `%%`
prints a percent sign, a verb without operand prints `%!c(MISSING)`, a lone
trailing `%` prints `%!(NOVERB)`. The model covers the formats whose verbs are
`%s`, `%v` and `%%`, the only ones in this package, without flags or widths;
for another verb letter it uses the bad-verb form `%!c(string=operand)` that
Go prints for the verbs that do not apply to strings. -/
def sprintfAux : List Char → List String → List Char
  | [], args => extraSuffix args
  | ['%'], args => "%!(NOVERB)".data ++ extraSuffix args
  | '%' :: '%' :: fs, args => '%' :: sprintfAux fs args
  | '%' :: c :: fs, [] => ("%!" ++ String.singleton c ++ "(MISSING)").data ++ sprintfAux fs []
  | '%' :: c :: fs, a :: rest =>
      if c = 's' ∨ c = 'v' then a.data ++ sprintfAux fs rest
      else ("%!" ++ String.singleton c ++ "(string=" ++ a ++ ")").data ++ sprintfAux fs rest
  | c :: fs, args => c :: sprintfAux fs args

/-- The Go call `fmt.Sprintf(format, args...)` with string operands. -/
def Sprintf (format : String) (args : List String) : String :=
  ⟨sprintfAux format.data args⟩

/-! ## Process environment -/

/-- The process environment: a partial map from variable names to values. -/
abbrev Env := String → Option String

/-- The Go call `os.Getenv(key)`: the value of the variable, or the empty string when it
is not set. -/
def Getenv (env : Env) (key : String) : String :=
  match env key with
  | some v => v
  | none => ""

/-! ## Info -/

/-- The `Info` struct of `tasks.go`. -/
structure Info where
  Repo : Bool
  Uncommitted : Bool
  Tag : String
  Branch : String
  Commit : String
  ShortCommit : String
  Time : String
  deriving DecidableEq

/-- The method `Info.Version` (tasks.go, lines 69-85). -/
def Info.Version (i : Info) (env : Env) : String :=
  if i.Repo then
    if i.Tag ≠ "" then
      i.Tag
    else
      let str := Sprintf "%s-%s" [i.Branch, i.ShortCommit]
      if i.Uncommitted then str ++ "-WIP" else str
  else
    Getenv env "VERSION"

/-- The method `Info.LDFlags` (tasks.go, lines 87-90). -/
def Info.LDFlags (i : Info) (env : Env) : String :=
  Sprintf "-X 'main.BuildVersion=%v' -X 'main.BuildTime=%v'" [i.Version env, i.Time]

/-! ## Clock and time formatting -/

/-- A broken-down UTC time, as `time.Now().UTC()` presents it to `Format`. -/
structure UTCTime where
  Year : Int
  Month : Nat
  Day : Nat
  Hour : Nat
  Minute : Nat
  Second : Nat
  deriving DecidableEq

/-- Gregorian leap years. -/
def isLeap (y : Int) : Bool :=
  y % 4 = 0 ∧ (y % 100 ≠ 0 ∨ y % 400 = 0)

/-- Number of days of a month of a year. -/
def daysIn (y : Int) (m : Nat) : Nat :=
  if m = 2 then (if isLeap y then 29 else 28)
  else if m = 4 ∨ m = 6 ∨ m = 9 ∨ m = 11 then 30
  else 31

/-- The civil times a clock can show: month 1-12, day within the month,
hour 0-23, minute and second 0-59. -/
def UTCTime.Valid (t : UTCTime) : Prop :=
  1 ≤ t.Month ∧ t.Month ≤ 12 ∧ 1 ≤ t.Day ∧ t.Day ≤ daysIn t.Year t.Month ∧
    t.Hour < 24 ∧ t.Minute < 60 ∧ t.Second < 60

instance (t : UTCTime) : Decidable t.Valid := by
  unfold UTCTime.Valid; infer_instance

/-- The decimal digit character of `n % 10`. -/
def digitChar (n : Nat) : Char := Char.ofNat (48 + n % 10)

/-- The decimal digits of `u`, most significant first; `fuel` bounds the
number of digits produced. -/
def decDigits : Nat → Nat → List Char
  | 0, _ => []
  | fuel + 1, u =>
      if u < 10 then [digitChar u] else decDigits fuel (u / 10) ++ [digitChar u]

/-- The decimal digits of `u` (`"0"` for zero). -/
def natDigits (u : Nat) : List Char := decDigits (u + 1) u

/-- Go's `time.appendInt(b, x, width)`: a minus sign for a negative `x`, then
the decimal digits of the magnitude, left-padded with zeros to `width`. -/
def appendInt (x : Int) (width : Nat) : List Char :=
  let u := x.natAbs
  let sign := if x < 0 then ['-'] else []
  let ds := natDigits u
  sign ++ List.replicate (width - ds.length) '0' ++ ds

/-- The loop of `Time.Format` over the layout, for the reference chunks
`2006` (year), `01` (month), `02` (day), `15` (hour), `04` (minute), `05`
(second) and `Z07:00` (zone, `Z` in UTC); every other character is copied.
The remaining chunks of Go's layout language (names, unpadded and 12-hour
fields, other zone forms, fractions) occur neither in `timeStampFormat` nor in
`time.RFC3339` and are not interpreted. -/
def formatAux (t : UTCTime) : List Char → List Char
  | '2' :: '0' :: '0' :: '6' :: rest => appendInt t.Year 4 ++ formatAux t rest
  | '0' :: '1' :: rest => appendInt t.Month 2 ++ formatAux t rest
  | '0' :: '2' :: rest => appendInt t.Day 2 ++ formatAux t rest
  | '1' :: '5' :: rest => appendInt t.Hour 2 ++ formatAux t rest
  | '0' :: '4' :: rest => appendInt t.Minute 2 ++ formatAux t rest
  | '0' :: '5' :: rest => appendInt t.Second 2 ++ formatAux t rest
  | 'Z' :: '0' :: '7' :: ':' :: '0' :: '0' :: rest => 'Z' :: formatAux t rest
  | c :: rest => c :: formatAux t rest
  | [] => []

/-- The Go call `t.Format(layout)`. -/
def UTCTime.Format (t : UTCTime) (layout : String) : String :=
  ⟨formatAux t layout.data⟩

/-- The Go constant `time.RFC3339`. -/
def RFC3339 : String := "2006-01-02T15:04:05Z07:00"

/-- The constant `mainBranch` (tasks.go, line 28). -/
def mainBranch : String := "main"

/-- The constant `timeStampFormat` (tasks.go, line 29). -/
def timeStampFormat : String := "v20060102T1504"

/-! ## strings.TrimSpace -/

/-- Go's `unicode.IsSpace`: the code points with the White_Space property. -/
def isSpace (c : Char) : Bool :=
  let n := c.toNat
  n = 0x09 || n = 0x0A || n = 0x0B || n = 0x0C || n = 0x0D || n = 0x20 ||
  n = 0x85 || n = 0xA0 || n = 0x1680 || (0x2000 ≤ n && n ≤ 0x200A) ||
  n = 0x2028 || n = 0x2029 || n = 0x202F || n = 0x205F || n = 0x3000

/-- Go's `strings.TrimSpace`: the string without its leading and trailing white
space. -/
def TrimSpace (s : String) : String :=
  ⟨((s.data.dropWhile isSpace).reverse.dropWhile isSpace).reverse⟩

/-- Go's `strings.TrimSuffix(s, "\n")`: the string without one trailing line
feed, if it ends in one. -/
def trimSuffixNewline (s : String) : String :=
  match s.data.reverse with
  | [] => s
  | c :: rest => if c = Char.ofNat 10 then ⟨rest.reverse⟩ else s

/-! ## os.Expand -/

/-- The opening brace. -/
def lbrace : Char := Char.ofNat 123

/-- The closing brace. -/
def rbrace : Char := Char.ofNat 125

/-- Go's `os.isShellSpecialVar`: the one-character shell variables. -/
def isShellSpecialVar (c : Char) : Bool :=
  c = '*' || c = '#' || c = '$' || c = '@' || c = '!' || c = '?' || c = '-' ||
  ('0' ≤ c && c ≤ '9')

/-- Go's `os.isAlphaNum`: underscore, ASCII digit or ASCII letter. -/
def isAlphaNum (c : Char) : Bool :=
  c = '_' || ('0' ≤ c && c ≤ '9') || ('a' ≤ c && c ≤ 'z') || ('A' ≤ c && c ≤ 'Z')

/-- Go's `os.getShellName`, on the text that follows a dollar sign: the name of
the variable and the number of characters consumed. A braced name runs to the
closing brace (empty braces and an unclosed brace are bad syntax, consumed
with an empty name); a special variable is one character; otherwise the name
is the run of alphanumerics. -/
def getShellName (s : List Char) : List Char × Nat :=
  match s with
  | [] => ([], 0)
  | c :: rest =>
      if c = lbrace then
        match rest with
        | d :: e :: _ =>
            if isShellSpecialVar d && e = rbrace then ([d], 3)
            else
              let name := rest.takeWhile (fun x => x ≠ rbrace)
              if name.length = rest.length then ([], 1)
              else if name.length = 0 then ([], 2)
              else (name, name.length + 2)
        | _ =>
            let name := rest.takeWhile (fun x => x ≠ rbrace)
            if name.length = rest.length then ([], 1)
            else if name.length = 0 then ([], 2)
            else (name, name.length + 2)
      else if isShellSpecialVar c then ([c], 1)
      else
        let name := s.takeWhile isAlphaNum
        (name, name.length)

/-- The loop of Go's `os.Expand`: a dollar sign that is not the last character
is replaced, with the name that follows it, by the value of the mapping (by
nothing on bad syntax, by itself when no name follows); every other character
is copied. `fuel` bounds the number of steps. -/
def expandAux (mapping : List Char → List Char) : Nat → List Char → List Char
  | 0, s => s
  | _ + 1, [] => []
  | fuel + 1, c :: rest =>
      if c = '$' ∧ rest ≠ [] then
        let nw := getShellName rest
        (if nw.1 = [] then (if 0 < nw.2 then [] else ['$']) else mapping nw.1) ++
          expandAux mapping fuel (rest.drop nw.2)
      else
        c :: expandAux mapping fuel rest

/-- The Go call `os.Expand(s, os.Getenv)`, the expansion mage's `sh.Exec` applies to
the command and to each of its arguments. -/
def Expand (env : Env) (s : String) : String :=
  ⟨expandAux (fun name => (Getenv env ⟨name⟩).data) s.data.length s.data⟩

/-! ## The external command collaborator -/

/-- Go error values: the exit-code error built by `mg.Fatal`, or any other
error. -/
inductive Error where
  | fatal (code : Int) (msg : String)
  | other (msg : String)
  deriving DecidableEq

/-- The Go call `mg.Fatal(code, msg)`. -/
def mgFatal (code : Int) (msg : String) : Error := Error.fatal code msg

/-- A command line: the program followed by its arguments. -/
abbrev Cmd := List String

/-- The host the package runs on, over a world state `σ`: running a command
yields the text of its standard output, its error (`none` on exit status 0)
and the next world; the clock is read from the world; `env` is the process
environment. -/
structure Host (σ : Type) where
  exec : σ → Cmd → (String × Option Error) × σ
  now : σ → UTCTime
  env : Env

/-- A run of the package: the current world and the commands issued so far,
oldest first. -/
structure Run (σ : Type) where
  world : σ
  issued : List Cmd

/-- The mage call `sh.Run(cmd, args...)`: expands the environment variables in the
command and in each argument, runs the expanded command, returns its error. -/
def shRun {σ : Type} (h : Host σ) (cmd : Cmd) (r : Run σ) : Option Error × Run σ :=
  let expanded := cmd.map (Expand h.env)
  let res := h.exec r.world expanded
  (res.1.2, ⟨res.2, r.issued ++ [expanded]⟩)

/-- The mage call `sh.Output(cmd, args...)`: expands the environment variables in the
command and in each argument, runs the expanded command, returns its output
without one trailing line feed, and its error. -/
def shOutput {σ : Type} (h : Host σ) (cmd : Cmd) (r : Run σ) :
    (String × Option Error) × Run σ :=
  let expanded := cmd.map (Expand h.env)
  let res := h.exec r.world expanded
  ((trimSuffixNewline res.1.1, res.1.2), ⟨res.2, r.issued ++ [expanded]⟩)

/-- The repository presence probe. -/
def cmdInsideWorkTree : Cmd := ["git", "rev-parse", "--is-inside-work-tree"]

/-- The full commit query. -/
def cmdCommit : Cmd := ["git", "rev-parse", "HEAD"]

/-- The short commit query. -/
def cmdShortCommit : Cmd := ["git", "rev-parse", "--short", "HEAD"]

/-- The dirty check. -/
def cmdDiffIndex : Cmd := ["git", "diff-index", "--quiet", "HEAD", "--"]

/-- The exact-tag query. -/
def cmdDescribe : Cmd := ["git", "describe", "--exact-match", "--tags"]

/-- The branch query. -/
def cmdBranch : Cmd := ["git", "rev-parse", "--abbrev-ref", "HEAD"]

/-- The tag creation command. -/
def cmdTag (v : String) : Cmd := ["git", "tag", v]

/-- The push command. -/
def cmdPush : Cmd := ["git", "push", "--tags"]

/-- The function `inRepo` (tasks.go, lines 92-95). -/
def inRepo {σ : Type} (h : Host σ) (r : Run σ) : Bool × Run σ :=
  let res := shRun h cmdInsideWorkTree r
  (res.1 = none, res.2)

/-- The function `getCommit` (tasks.go, lines 102-108). -/
def getCommit {σ : Type} (h : Host σ) (r : Run σ) : (String × Option Error) × Run σ :=
  let res := shOutput h cmdCommit r
  match res.1.2 with
  | some err => (("", some err), res.2)
  | none => ((TrimSpace res.1.1, none), res.2)

/-- The function `getShortCommit` (tasks.go, lines 110-116). -/
def getShortCommit {σ : Type} (h : Host σ) (r : Run σ) : (String × Option Error) × Run σ :=
  let res := shOutput h cmdShortCommit r
  match res.1.2 with
  | some err => (("", some err), res.2)
  | none => ((TrimSpace res.1.1, none), res.2)

/-- The function `uncommittedChanges` (tasks.go, lines 97-100). -/
def uncommittedChanges {σ : Type} (h : Host σ) (r : Run σ) : Bool × Run σ :=
  let res := shRun h cmdDiffIndex r
  (res.1 ≠ none, res.2)

/-- The function `getCurrentTag` (tasks.go, lines 118-124). -/
def getCurrentTag {σ : Type} (h : Host σ) (r : Run σ) : (String × Option Error) × Run σ :=
  let res := shOutput h cmdDescribe r
  match res.1.2 with
  | some err => (("", some err), res.2)
  | none => ((TrimSpace res.1.1, none), res.2)

/-- The function `getCurrentBranch` (tasks.go, lines 126-132). -/
def getCurrentBranch {σ : Type} (h : Host σ) (r : Run σ) : (String × Option Error) × Run σ :=
  let res := shOutput h cmdBranch r
  match res.1.2 with
  | some err => (("", some err), res.2)
  | none => ((TrimSpace res.1.1, none), res.2)

/-- The function `generateVersion` (tasks.go, lines 134-145). -/
def generateVersion {σ : Type} (h : Host σ) (r : Run σ) : String × Run σ :=
  let res := getCurrentBranch h r
  let branch := if res.1.2 ≠ none then mainBranch else res.1.1
  let tn := h.now res.2.world
  let v := tn.Format timeStampFormat
  if branch = mainBranch then (v, res.2) else (branch ++ "-" ++ v, res.2)

/-- The function `Now` (tasks.go, lines 33-48). -/
def Now {σ : Type} (h : Host σ) (r : Run σ) : Info × Run σ :=
  let tn := (h.now r.world).Format RFC3339
  let repo := inRepo h r
  if repo.1 then
    let dirty := uncommittedChanges h repo.2
    let tag := getCurrentTag h dirty.2
    let branch := getCurrentBranch h tag.2
    let commit := getCommit h branch.2
    let short := getShortCommit h commit.2
    (⟨true, dirty.1, tag.1.1, branch.1.1, commit.1.1, short.1.1, tn⟩, short.2)
  else
    (⟨false, false, "", "", "", "", tn⟩, repo.2)

/-- The function `Release` (tasks.go, lines 52-65). -/
def Release {σ : Type} (h : Host σ) (r : Run σ) : Option Error × Run σ :=
  let dirty := uncommittedChanges h r
  if dirty.1 then
    (some (mgFatal 1 "Uncommitted changes!"), dirty.2)
  else
    let tag := getCurrentTag h dirty.2
    if tag.1.2 ≠ none then
      let v := generateVersion h tag.2
      let tagged := shRun h (cmdTag v.1) v.2
      match tagged.1 with
      | some err => (some err, tagged.2)
      | none => shRun h cmdPush tagged.2
    else
      shRun h cmdPush tag.2

/-! ## A scripted host, for evaluating the model on concrete runs -/

/-- A world that answers the commands from a fixed script of results, in
order, and whose clock shows a fixed time; after the script is exhausted every
command succeeds with empty output. -/
structure Script where
  answers : List (String × Option Error)
  clock : UTCTime

/-- The host over scripted worlds, in a given process environment. -/
def scriptHostIn (env : Env) : Host Script where
  exec w _ :=
    match w.answers with
    | [] => (("", none), w)
    | a :: rest => (a, ⟨rest, w.clock⟩)
  now w := w.clock
  env := env

/-- The host over scripted worlds, in the empty process environment. -/
def scriptHost : Host Script := scriptHostIn (fun _ => none)

/-- The start of a scripted run. -/
def scriptRun (answers : List (String × Option Error)) (clock : UTCTime) : Run Script :=
  ⟨⟨answers, clock⟩, []⟩

/-! ## Statement vocabulary -/

/-- The single quote character that delimits the linker symbol definitions. -/
def quote : Char := Char.ofNat 39

/-- Whether a command is a tag creation, `git tag <name>`. -/
def isTagCmd (c : Cmd) : Bool := c.take 2 == ["git", "tag"]

/-- The run after `n` successive calls of `Release`. -/
def releaseTimes {σ : Type} (h : Host σ) : Nat → Run σ → Run σ
  | 0, r => r
  | n + 1, r => releaseTimes h n (Release h r).2

/-! ## Lemmas on formatting -/

theorem sprintf_dash (a b : String) : Sprintf "%s-%s" [a, b] = a ++ "-" ++ b := by
  apply String.ext
  simp [Sprintf, sprintfAux, extraSuffix]

theorem ldflags_unfold (i : Info) (env : Env) :
    i.LDFlags env =
      "-X 'main.BuildVersion=" ++ i.Version env ++ "' -X 'main.BuildTime=" ++ i.Time ++ "'" := by
  apply String.ext
  simp [Info.LDFlags, Sprintf, sprintfAux, extraSuffix]

/-- The characters of `LDFlags`, split at the three quotes that follow the
version. -/
theorem ldflags_data (i : Info) (env : Env) :
    (i.LDFlags env).data =
      "-X ".data ++ quote :: ("main.BuildVersion=".data ++ ((i.Version env).data ++
        quote :: (" -X ".data ++ quote :: ("main.BuildTime=".data ++ i.Time.data ++ [quote])))) := by
  simp [Info.LDFlags, Sprintf, sprintfAux, extraSuffix, quote]

/-- A list is split in one way only at the first occurrence of an element. -/
theorem split_first {α : Type} (q : α) :
    ∀ (x y r s : List α), q ∉ x → q ∉ y → x ++ q :: r = y ++ q :: s → x = y ∧ r = s
  | [], [], r, s, _, _, h => by simpa using h
  | [], b :: y, r, s, _, hy, h => by
      simp at h
      exact absurd (by simp [h.1]) hy
  | a :: x, [], r, s, hx, _, h => by
      simp at h
      exact absurd (by simp [h.1]) hx
  | a :: x, b :: y, r, s, hx, hy, h => by
      simp at h hx hy
      obtain ⟨hab, hrest⟩ := h
      obtain ⟨hxy, hrs⟩ := split_first q x y r s hx.2 hy.2 hrest
      exact ⟨by rw [hab, hxy], hrs⟩

/-- A list is split in one way only at the last occurrence of an element. -/
theorem split_last {α : Type} (q : α) (x y r s : List α) (hr : q ∉ r) (hs : q ∉ s)
    (h : x ++ q :: r = y ++ q :: s) : x = y ∧ r = s := by
  have h2 := congrArg List.reverse h
  simp only [List.reverse_append, List.reverse_cons, List.append_assoc,
    List.singleton_append] at h2
  obtain ⟨h3, h4⟩ := split_first q r.reverse s.reverse x.reverse y.reverse
    (by simpa using hr) (by simpa using hs) h2
  exact ⟨List.reverse_injective h4, List.reverse_injective h3⟩

/-- With quote-free versions, equal flags have equal versions and times. -/
theorem ldflags_inj_of_version (a b : Info) (env : Env)
    (ha : quote ∉ (a.Version env).data) (hb : quote ∉ (b.Version env).data)
    (h : a.LDFlags env = b.LDFlags env) : a.Version env = b.Version env ∧ a.Time = b.Time := by
  have hd := congrArg String.data h
  rw [ldflags_data, ldflags_data] at hd
  have h1 := List.append_cancel_left hd
  have h2 := List.append_cancel_left (List.cons_injective h1)
  obtain ⟨hv, hrest⟩ := split_first quote _ _ _ _ ha hb h2
  have h3 := List.append_cancel_left hrest
  have h4 := List.append_cancel_right (List.cons_injective h3)
  have h5 := List.append_cancel_left h4
  exact ⟨String.ext hv, String.ext h5⟩

/-- With quote-free times, equal flags have equal versions and times. -/
theorem ldflags_inj_of_time (a b : Info) (env : Env)
    (ha : quote ∉ a.Time.data) (hb : quote ∉ b.Time.data)
    (h : a.LDFlags env = b.LDFlags env) : a.Version env = b.Version env ∧ a.Time = b.Time := by
  have hd := congrArg String.data h
  rw [ldflags_data, ldflags_data] at hd
  have h1 := List.append_cancel_left hd
  have h2 := List.append_cancel_left (List.cons_injective h1)
  have hq : quote ∉ "main.BuildTime=".data := by decide
  have e : ∀ (v t : List Char), v ++ quote :: (" -X ".data ++ quote :: ("main.BuildTime=".data ++ t ++ [quote]))
      = ((v ++ quote :: (" -X ".data ++ quote :: ("main.BuildTime=".data ++ t))) ++ [quote]) := by
    intro v t; simp
  rw [e, e] at h2
  have h3 := List.append_cancel_right h2
  have e2 : ∀ (v t : List Char), v ++ quote :: (" -X ".data ++ quote :: ("main.BuildTime=".data ++ t))
      = (v ++ quote :: " -X ".data) ++ quote :: ("main.BuildTime=".data ++ t) := by
    intro v t; simp
  rw [e2, e2] at h3
  have na : quote ∉ "main.BuildTime=".data ++ a.Time.data := fun hm =>
    (List.mem_append.1 hm).elim hq ha
  have nb : quote ∉ "main.BuildTime=".data ++ b.Time.data := fun hm =>
    (List.mem_append.1 hm).elim hq hb
  obtain ⟨hv, ht⟩ := split_last quote _ _ _ _ na nb h3
  exact ⟨String.ext (List.append_cancel_right hv), String.ext (List.append_cancel_left ht)⟩

/-! ## Lemmas on decimal fields -/

theorem decDigits_one (f u : Nat) (h : u < 10) : decDigits (f + 1) u = [digitChar u] := by
  simp [decDigits, h]

theorem decDigits_two (f u : Nat) (h1 : 10 ≤ u) (h2 : u < 100) :
    decDigits (f + 2) u = [digitChar (u / 10), digitChar u] := by
  have : ¬ u < 10 := by omega
  rw [decDigits, if_neg this, decDigits_one f (u / 10) (by omega)]
  rfl

theorem decDigits_three (f u : Nat) (h1 : 100 ≤ u) (h2 : u < 1000) :
    decDigits (f + 3) u = [digitChar (u / 100), digitChar (u / 10), digitChar u] := by
  have : ¬ u < 10 := by omega
  rw [decDigits, if_neg this, decDigits_two f (u / 10) (by omega) (by omega),
    Nat.div_div_eq_div_mul]
  rfl

theorem decDigits_four (f u : Nat) (h1 : 1000 ≤ u) (h2 : u < 10000) :
    decDigits (f + 4) u =
      [digitChar (u / 1000), digitChar (u / 100), digitChar (u / 10), digitChar u] := by
  have : ¬ u < 10 := by omega
  rw [decDigits, if_neg this, decDigits_three f (u / 10) (by omega) (by omega),
    Nat.div_div_eq_div_mul, Nat.div_div_eq_div_mul]
  rfl

theorem digitChar_zero (n : Nat) (h : n = 0) : digitChar n = '0' := by
  subst h; rfl

/-- A field below 100 printed with width 2 is its two decimal digits. -/
theorem appendInt_two (u : Nat) (h : u < 100) :
    appendInt (u : Int) 2 = [digitChar (u / 10), digitChar u] := by
  have hs : ¬ ((u : Int) < 0) := by omega
  simp only [appendInt, if_neg hs, Int.natAbs_ofNat, natDigits, List.nil_append]
  by_cases h1 : u < 10
  · rw [decDigits_one u u h1, digitChar_zero (u / 10) (by omega)]
    rfl
  · have e : u + 1 = (u - 1) + 2 := by omega
    rw [e, decDigits_two (u - 1) u (by omega) h]
    rfl

/-- A year from 0 to 9999 printed with width 4 is its four decimal digits. -/
theorem appendInt_four (y : Int) (h0 : 0 ≤ y) (h : y ≤ 9999) :
    appendInt y 4 =
      [digitChar (y.toNat / 1000), digitChar (y.toNat / 100), digitChar (y.toNat / 10),
        digitChar y.toNat] := by
  obtain ⟨u, rfl⟩ := Int.eq_ofNat_of_zero_le h0
  have hu : u < 10000 := by omega
  have hs : ¬ ((u : Int) < 0) := by omega
  simp only [appendInt, if_neg hs, Int.natAbs_ofNat, natDigits, List.nil_append, Int.toNat_ofNat]
  by_cases h1 : u < 10
  · rw [decDigits_one u u h1, digitChar_zero (u / 10) (by omega),
      digitChar_zero (u / 100) (by omega), digitChar_zero (u / 1000) (by omega)]
    rfl
  · by_cases h2 : u < 100
    · have e : u + 1 = (u - 1) + 2 := by omega
      rw [e, decDigits_two (u - 1) u (by omega) h2,
        digitChar_zero (u / 100) (by omega), digitChar_zero (u / 1000) (by omega)]
      rfl
    · by_cases h3 : u < 1000
      · have e : u + 1 = (u - 2) + 3 := by omega
        rw [e, decDigits_three (u - 2) u (by omega) h3, digitChar_zero (u / 1000) (by omega)]
        rfl
      · have e : u + 1 = (u - 3) + 4 := by omega
        rw [e, decDigits_four (u - 3) u (by omega) hu]
        rfl

/-- No decimal digit is the single quote. -/
theorem digitChar_ne_quote (n : Nat) : digitChar n ≠ quote := by
  have hk : n % 10 < 10 := Nat.mod_lt n (by decide)
  unfold digitChar
  generalize n % 10 = k at hk
  interval_cases k <;> decide

theorem quote_not_mem_decDigits (f u : Nat) : quote ∉ decDigits f u := by
  induction f generalizing u with
  | zero => simp [decDigits]
  | succ f ih =>
    unfold decDigits
    split
    · simpa using (digitChar_ne_quote u).symm
    · intro hm
      rcases List.mem_append.1 hm with h1 | h1
      · exact ih _ h1
      · exact digitChar_ne_quote u (by simpa using (List.mem_singleton.1 h1).symm)

/-- No printed decimal field contains the single quote. -/
theorem quote_not_mem_appendInt (x : Int) (w : Nat) : quote ∉ appendInt x w := by
  unfold appendInt natDigits
  intro hm
  simp only [List.mem_append] at hm
  rcases hm with (h1 | h1) | h1
  · split at h1
    · exact absurd h1 (by decide)
    · exact absurd h1 (by simp)
  · have := List.eq_of_mem_replicate h1
    exact absurd this (by decide)
  · exact quote_not_mem_decDigits _ _ h1

/-- The layout `time.RFC3339` prints the date, `T`, the time of day and `Z`. -/
theorem format_RFC3339 (t : UTCTime) :
    (t.Format RFC3339).data =
      appendInt t.Year 4 ++ '-' :: (appendInt t.Month 2 ++ '-' :: (appendInt t.Day 2 ++
        'T' :: (appendInt t.Hour 2 ++ ':' :: (appendInt t.Minute 2 ++
          ':' :: (appendInt t.Second 2 ++ ['Z']))))) := by
  rfl

/-- The time of every `Info` built by `Now` is free of single quotes. -/
theorem now_time_quote_free {σ : Type} (h : Host σ) (r : Run σ) :
    quote ∉ (Now h r).1.Time.data := by
  have ht : (Now h r).1.Time = (h.now r.world).Format RFC3339 := by
    unfold Now
    simp only []
    split <;> rfl
  rw [ht, format_RFC3339]
  have q := quote_not_mem_appendInt
  simp only [List.mem_append, List.mem_cons, List.mem_singleton, List.not_mem_nil, not_or]
  have c1 : quote ≠ '-' := by decide
  have c2 : quote ≠ 'T' := by decide
  have c3 : quote ≠ ':' := by decide
  have c4 : quote ≠ 'Z' := by decide
  simp [q, c1, c2, c3, c4]

/-- The layout `timeStampFormat` prints `v`, the year, the month, the day, `T`,
the hour and the minute. -/
theorem format_timeStamp (t : UTCTime) :
    (t.Format timeStampFormat).data =
      'v' :: (appendInt t.Year 4 ++ (appendInt t.Month 2 ++ (appendInt t.Day 2 ++
        'T' :: (appendInt t.Hour 2 ++ (appendInt t.Minute 2 ++ []))))) := by
  rfl

/-! ## Lemmas on expansion and trimming -/

theorem expandAux_of_no_dollar (m : List Char → List Char) :
    ∀ (fuel : Nat) (s : List Char), '$' ∉ s → expandAux m fuel s = s
  | 0, _, _ => rfl
  | _ + 1, [], _ => rfl
  | fuel + 1, c :: rest, hs => by
      have hc : c ≠ '$' := fun hc => hs (by simp [hc])
      have hr : '$' ∉ rest := fun hr => hs (List.mem_cons_of_mem _ hr)
      simp [expandAux, hc, expandAux_of_no_dollar m fuel rest hr]

/-- Expansion leaves a string without dollar sign unchanged. -/
theorem expand_of_no_dollar (env : Env) (s : String) (hs : '$' ∉ s.data) :
    Expand env s = s := by
  apply String.ext
  exact expandAux_of_no_dollar _ _ _ hs

/-- Expansion leaves a command without dollar sign unchanged. -/
theorem expand_cmd (env : Env) (cmd : Cmd) (hc : ∀ a ∈ cmd, '$' ∉ a.data) :
    cmd.map (Expand env) = cmd := by
  induction cmd with
  | nil => rfl
  | cons a rest ih =>
    simp only [List.map_cons]
    rw [expand_of_no_dollar env a (hc a (by simp)),
      ih (fun b hb => hc b (List.mem_cons_of_mem _ hb))]

theorem expand_cmdDiffIndex (env : Env) : cmdDiffIndex.map (Expand env) = cmdDiffIndex :=
  expand_cmd env _ (by decide)

theorem expand_cmdDescribe (env : Env) : cmdDescribe.map (Expand env) = cmdDescribe :=
  expand_cmd env _ (by decide)

theorem expand_cmdBranch (env : Env) : cmdBranch.map (Expand env) = cmdBranch :=
  expand_cmd env _ (by decide)

theorem expand_cmdPush (env : Env) : cmdPush.map (Expand env) = cmdPush :=
  expand_cmd env _ (by decide)

/-- The tag command after expansion is the tag command of the expanded name. -/
theorem expand_cmdTag (env : Env) (v : String) :
    (cmdTag v).map (Expand env) = cmdTag (Expand env v) := by
  have h1 : Expand env "git" = "git" := expand_of_no_dollar env _ (by decide)
  have h2 : Expand env "tag" = "tag" := expand_of_no_dollar env _ (by decide)
  simp [cmdTag, h1, h2]

theorem dropWhile_reverse_snoc (t : List Char) (c : Char) (hc : isSpace c = true) :
    ((t ++ [c]).dropWhile isSpace).reverse.dropWhile isSpace =
      (t.dropWhile isSpace).reverse.dropWhile isSpace := by
  induction t with
  | nil => simp [List.dropWhile, hc]
  | cons a t ih =>
    by_cases ha : isSpace a = true
    · simpa [List.dropWhile, ha] using ih
    · simp [List.dropWhile, ha, hc]

/-- Trimming white space after removing a trailing line feed is trimming white
space. -/
theorem trimSpace_trimSuffixNewline (s : String) :
    TrimSpace (trimSuffixNewline s) = TrimSpace s := by
  unfold trimSuffixNewline
  cases hrev : s.data.reverse with
  | nil => rfl
  | cons c rest =>
    simp only []
    split
    · rename_i hc
      have hs : s.data = rest.reverse ++ [c] := by
        have := congrArg List.reverse hrev
        simpa using this
      have hsp : isSpace c = true := by rw [hc]; decide
      unfold TrimSpace
      rw [hs, dropWhile_reverse_snoc _ _ hsp]
    · rfl

theorem shRun_cmdDiffIndex {σ : Type} (h : Host σ) (r : Run σ) :
    shRun h cmdDiffIndex r = ((h.exec r.world cmdDiffIndex).1.2,
      ⟨(h.exec r.world cmdDiffIndex).2, r.issued ++ [cmdDiffIndex]⟩) := by
  simp only [shRun, expand_cmdDiffIndex]

theorem shRun_cmdPush {σ : Type} (h : Host σ) (r : Run σ) :
    shRun h cmdPush r = ((h.exec r.world cmdPush).1.2,
      ⟨(h.exec r.world cmdPush).2, r.issued ++ [cmdPush]⟩) := by
  simp only [shRun, expand_cmdPush]

theorem shRun_cmdTag {σ : Type} (h : Host σ) (v : String) (r : Run σ) :
    shRun h (cmdTag v) r = ((h.exec r.world (cmdTag (Expand h.env v))).1.2,
      ⟨(h.exec r.world (cmdTag (Expand h.env v))).2,
        r.issued ++ [cmdTag (Expand h.env v)]⟩) := by
  simp only [shRun, expand_cmdTag]

/-- The exact-tag query: its error, and the run after it. -/
theorem getCurrentTag_eq {σ : Type} (h : Host σ) (r : Run σ) :
    (getCurrentTag h r).1.2 = (h.exec r.world cmdDescribe).1.2 ∧
    (getCurrentTag h r).2 = ⟨(h.exec r.world cmdDescribe).2, r.issued ++ [cmdDescribe]⟩ := by
  unfold getCurrentTag shOutput
  simp only [expand_cmdDescribe]
  cases he : (h.exec r.world cmdDescribe).1.2 <;> exact ⟨rfl, rfl⟩

/-- The branch query: its value, its error, and the run after it. -/
theorem getCurrentBranch_eq {σ : Type} (h : Host σ) (r : Run σ) :
    (getCurrentBranch h r).1.1 =
      (if (h.exec r.world cmdBranch).1.2 ≠ none then ""
        else TrimSpace (h.exec r.world cmdBranch).1.1) ∧
    (getCurrentBranch h r).1.2 = (h.exec r.world cmdBranch).1.2 ∧
    (getCurrentBranch h r).2 = ⟨(h.exec r.world cmdBranch).2, r.issued ++ [cmdBranch]⟩ := by
  unfold getCurrentBranch shOutput
  simp only [expand_cmdBranch]
  cases he : (h.exec r.world cmdBranch).1.2 with
  | none => exact ⟨by simp [trimSpace_trimSuffixNewline], rfl, rfl⟩
  | some e => exact ⟨by simp, rfl, rfl⟩

/-! ## Lemmas on the release protocol -/

/-- The three paths of `Release`, by the outcomes of the dirty check and of the
exact-tag query. -/
theorem release_dirty {σ : Type} (h : Host σ) (r : Run σ)
    (hd : (h.exec r.world cmdDiffIndex).1.2 ≠ none) :
    Release h r = (some (mgFatal 1 "Uncommitted changes!"),
      ⟨(h.exec r.world cmdDiffIndex).2, r.issued ++ [cmdDiffIndex]⟩) := by
  simp [Release, uncommittedChanges, shRun_cmdDiffIndex, hd]

theorem release_tagged {σ : Type} (h : Host σ) (r : Run σ)
    (hd : (h.exec r.world cmdDiffIndex).1.2 = none)
    (ht : (h.exec (h.exec r.world cmdDiffIndex).2 cmdDescribe).1.2 = none) :
    Release h r = shRun h cmdPush
      ⟨(h.exec (h.exec r.world cmdDiffIndex).2 cmdDescribe).2,
        r.issued ++ [cmdDiffIndex, cmdDescribe]⟩ := by
  obtain ⟨hg1, hg2⟩ := getCurrentTag_eq h
    ⟨(h.exec r.world cmdDiffIndex).2, r.issued ++ [cmdDiffIndex]⟩
  simp only [] at hg1 hg2
  unfold Release uncommittedChanges
  simp [shRun_cmdDiffIndex, hd, hg1, hg2, ht]

theorem release_untagged {σ : Type} (h : Host σ) (r : Run σ)
    (hd : (h.exec r.world cmdDiffIndex).1.2 = none)
    (ht : (h.exec (h.exec r.world cmdDiffIndex).2 cmdDescribe).1.2 ≠ none) :
    Release h r =
      (let v := generateVersion h
          ⟨(h.exec (h.exec r.world cmdDiffIndex).2 cmdDescribe).2,
            r.issued ++ [cmdDiffIndex, cmdDescribe]⟩
       let tagged := shRun h (cmdTag v.1) v.2
       match tagged.1 with
       | some err => (some err, tagged.2)
       | none => shRun h cmdPush tagged.2) := by
  obtain ⟨hg1, hg2⟩ := getCurrentTag_eq h
    ⟨(h.exec r.world cmdDiffIndex).2, r.issued ++ [cmdDiffIndex]⟩
  simp only [] at hg1 hg2
  unfold Release uncommittedChanges
  simp [shRun_cmdDiffIndex, hd, hg1, hg2, ht]

/-- The branch query is the only command `getCurrentBranch` issues. -/
theorem getCurrentBranch_run {σ : Type} (h : Host σ) (r : Run σ) :
    (getCurrentBranch h r).2 = ⟨(h.exec r.world cmdBranch).2, r.issued ++ [cmdBranch]⟩ := by
  exact (getCurrentBranch_eq h r).2.2

/-- The branch query is the only command `generateVersion` issues. -/
theorem generateVersion_run {σ : Type} (h : Host σ) (r : Run σ) :
    (generateVersion h r).2 = ⟨(h.exec r.world cmdBranch).2, r.issued ++ [cmdBranch]⟩ := by
  rw [← getCurrentBranch_run]
  unfold generateVersion
  simp only []
  repeat (split <;> try rfl)

/-! ## Version and LDFlags -/

/-- C1: without a repository, `Version` is exactly the value of the `VERSION`
environment variable, the empty string when it is unset, whatever the other
fields hold. -/
theorem version_without_repo (i : Info) (env : Env) (h : i.Repo = false) :
    i.Version env = (env "VERSION").getD "" := by
  unfold Info.Version Getenv
  rw [h]
  cases env "VERSION" <;> rfl

theorem version_without_repo_witness :
    (Info.mk false true "v9" "dev" "c0ffee00" "c0ffee" "t").Version
        (fun k => if k = "VERSION" then some "2.3.4" else none) = "2.3.4" ∧
    (Info.mk false true "v9" "dev" "c0ffee00" "c0ffee" "t").Version (fun _ => none) = "" :=
  ⟨version_without_repo _ _ rfl, version_without_repo _ _ rfl⟩

/-- C2: with a repository and a non-empty tag, `Version` is the tag unchanged,
whatever the other fields and the environment hold. -/
theorem version_with_tag (i : Info) (env : Env) (hr : i.Repo = true) (ht : i.Tag ≠ "") :
    i.Version env = i.Tag := by
  unfold Info.Version
  rw [hr]
  simp [ht]

theorem version_with_tag_witness :
    (Info.mk true false "v1.2.0" "main" "c0ffee00" "c0ffee" "t").Version
        (fun _ => some "2.3.4") = "v1.2.0" :=
  version_with_tag _ _ rfl (by decide)

/-- C3: with a repository and an empty tag, `Version` is the branch, a dash and
the short commit, followed by `-WIP` exactly when there are uncommitted
changes. -/
theorem version_without_tag (i : Info) (env : Env) (hr : i.Repo = true) (ht : i.Tag = "") :
    i.Version env =
      i.Branch ++ "-" ++ i.ShortCommit ++ (if i.Uncommitted then "-WIP" else "") := by
  unfold Info.Version
  rw [hr, ht, sprintf_dash]
  cases i.Uncommitted <;> simp

theorem version_without_tag_witness :
    (Info.mk true true "" "feature-x" "abcd1234" "abcd123" "t").Version (fun _ => none)
        = "feature-x-abcd123-WIP" ∧
    (Info.mk true false "" "feature-x" "abcd1234" "abcd123" "t").Version (fun _ => none)
        = "feature-x-abcd123" :=
  ⟨version_without_tag _ _ rfl rfl, version_without_tag _ _ rfl rfl⟩

/-- C4: `LDFlags` is exactly the template `-X 'main.BuildVersion=<version>' -X
'main.BuildTime=<time>'` filled with `Version` and `Time`, with nothing before,
between or after these pieces. -/
theorem ldflags_template (i : Info) (env : Env) :
    i.LDFlags env =
      "-X 'main.BuildVersion=" ++ i.Version env ++ "' -X 'main.BuildTime=" ++ i.Time ++ "'" :=
  ldflags_unfold i env

/-- C5 (as stated, refuted): two `Info` values with the same `LDFlags` in the
same environment whose versions and times both differ, the quote-delimited
separator being part of a tag on one side and of the time on the other. -/
theorem ldflags_not_injective :
    (Info.mk true false "1" "" "" "" "' -X 'main.BuildTime=2").LDFlags (fun _ => none) =
      (Info.mk true false "1' -X 'main.BuildTime=" "" "" "" "2").LDFlags (fun _ => none) ∧
    (Info.mk true false "1" "" "" "" "' -X 'main.BuildTime=2").Version (fun _ => none) ≠
      (Info.mk true false "1' -X 'main.BuildTime=" "" "" "" "2").Version (fun _ => none) ∧
    (Info.mk true false "1" "" "" "" "' -X 'main.BuildTime=2").Time ≠
      (Info.mk true false "1' -X 'main.BuildTime=" "" "" "" "2").Time := by
  decide

/-- C5 (amended): for two `Info` values in the same environment, when neither
time contains a single quote, or neither version contains one, equal `LDFlags`
imply equal versions and equal times. -/
theorem ldflags_roundtrip (a b : Info) (env : Env)
    (hq : (quote ∉ a.Time.data ∧ quote ∉ b.Time.data) ∨
      (quote ∉ (a.Version env).data ∧ quote ∉ (b.Version env).data))
    (h : a.LDFlags env = b.LDFlags env) :
    a.Version env = b.Version env ∧ a.Time = b.Time := by
  rcases hq with ⟨ha, hb⟩ | ⟨ha, hb⟩
  · exact ldflags_inj_of_time a b env ha hb h
  · exact ldflags_inj_of_version a b env ha hb h

theorem ldflags_roundtrip_witness :
    (Info.mk true false "v1.2.0" "main" "c0ffee00" "c0ffee" "2024-06-15T14:30:00Z").Version
        (fun _ => none) =
      (Info.mk true true "v1.2.0" "dev" "deadbeef" "deadbe" "2024-06-15T14:30:00Z").Version
        (fun _ => none) ∧
    (Info.mk true false "v1.2.0" "main" "c0ffee00" "c0ffee" "2024-06-15T14:30:00Z").Time =
      (Info.mk true true "v1.2.0" "dev" "deadbeef" "deadbe" "2024-06-15T14:30:00Z").Time :=
  ldflags_roundtrip _ _ _ (Or.inl ⟨by decide, by decide⟩) (by decide)

/-! ## Release and generateVersion -/

/-- C6: when the dirty check reports uncommitted changes, `Release` returns the
fatal error with exit code 1 and message `Uncommitted changes!`, and the dirty
check is the only command it issues: no exact-tag query, no `git tag`, no
`git push --tags`. -/
theorem release_dirty_stops {σ : Type} (h : Host σ) (r : Run σ)
    (hd : (h.exec r.world cmdDiffIndex).1.2 ≠ none) :
    (Release h r).1 = some (Error.fatal 1 "Uncommitted changes!") ∧
    (Release h r).2.issued = r.issued ++ [cmdDiffIndex] ∧
    cmdDescribe ∉ [cmdDiffIndex] ∧ cmdPush ∉ [cmdDiffIndex] ∧ isTagCmd cmdDiffIndex = false := by
  rw [release_dirty h r hd]
  exact ⟨rfl, rfl, by decide, by decide, by decide⟩

theorem release_dirty_stops_witness :
    (Release scriptHost (scriptRun [("", some (Error.other "exit status 1"))]
        (UTCTime.mk 2024 6 15 14 30 0))).1 = some (Error.fatal 1 "Uncommitted changes!") ∧
    (Release scriptHost (scriptRun [("", some (Error.other "exit status 1"))]
        (UTCTime.mk 2024 6 15 14 30 0))).2.issued = [] ++ [cmdDiffIndex] ∧
    cmdDescribe ∉ [cmdDiffIndex] ∧ cmdPush ∉ [cmdDiffIndex] ∧ isTagCmd cmdDiffIndex = false :=
  release_dirty_stops scriptHost _ (by decide)

/-- C7: when the tree is clean and the exact-tag query succeeds, `Release`
issues the dirty check, the exact-tag query and then `git push --tags`, once and
last, with no `git tag` and no branch query, and returns exactly the result of
the push; on a host where the tree stays clean and the tag stays at HEAD, any
number of repeated releases issues no `git tag`. -/
theorem release_tagged_pushes {σ : Type} (h : Host σ) (r : Run σ)
    (hd : (h.exec r.world cmdDiffIndex).1.2 = none)
    (ht : (h.exec (h.exec r.world cmdDiffIndex).2 cmdDescribe).1.2 = none) :
    (Release h r).2.issued = r.issued ++ [cmdDiffIndex, cmdDescribe, cmdPush] ∧
    (Release h r).1 =
      (h.exec (h.exec (h.exec r.world cmdDiffIndex).2 cmdDescribe).2 cmdPush).1.2 ∧
    (∀ c ∈ [cmdDiffIndex, cmdDescribe, cmdPush], isTagCmd c = false ∧ c ≠ cmdBranch) ∧
    ((∀ w, (h.exec w cmdDiffIndex).1.2 = none ∧ (h.exec w cmdDescribe).1.2 = none) →
      ∀ n, ∀ c ∈ (releaseTimes h n r).issued, c ∈ r.issued ∨ isTagCmd c = false) := by
  refine ⟨?_, ?_, by decide, ?_⟩
  · rw [release_tagged h r hd ht, shRun_cmdPush]; simp
  · rw [release_tagged h r hd ht, shRun_cmdPush]
  · intro hw n
    induction n generalizing r with
    | zero => intro c hc; exact Or.inl hc
    | succ n ih =>
      intro c hc
      have hstep : (Release h r).2.issued = r.issued ++ [cmdDiffIndex, cmdDescribe, cmdPush] := by
        rw [release_tagged h r (hw _).1 (hw _).2, shRun_cmdPush]; simp
      rcases ih (Release h r).2 (hw _).1 (hw _).2 c hc with h1 | h1
      · rw [hstep] at h1
        rcases List.mem_append.1 h1 with h2 | h2
        · exact Or.inl h2
        · refine Or.inr ?_
          revert h2
          generalize c = d
          revert d
          decide
      · exact Or.inr h1

theorem release_tagged_pushes_witness :
    (Release scriptHost (scriptRun [("", none), ("v1.2.0", none),
        ("", some (Error.other "rejected"))] (UTCTime.mk 2024 6 15 14 30 0))).2.issued =
      [cmdDiffIndex, cmdDescribe, cmdPush] ∧
    (Release scriptHost (scriptRun [("", none), ("v1.2.0", none),
        ("", some (Error.other "rejected"))] (UTCTime.mk 2024 6 15 14 30 0))).1 =
      some (Error.other "rejected") :=
  ⟨(release_tagged_pushes scriptHost (scriptRun [("", none), ("v1.2.0", none),
      ("", some (Error.other "rejected"))] (UTCTime.mk 2024 6 15 14 30 0)) rfl rfl).1,
   (release_tagged_pushes scriptHost (scriptRun [("", none), ("v1.2.0", none),
      ("", some (Error.other "rejected"))] (UTCTime.mk 2024 6 15 14 30 0)) rfl rfl).2.1⟩

/-- C8 (as stated, refuted): on the branch `cash$` the value of
`generateVersion` is `cash$-v20240615T1430` but the command issued is
`git tag cashv20240615T1430`, and on the branch `rel-$VERSION` with
`VERSION=9.9` the value is `rel-$VERSION-v20240615T1430` but the command issued
is `git tag rel-9.9-v20240615T1430`: `sh.Run` expands the dollar names of its
arguments. -/
theorem release_tag_expanded :
    (generateVersion scriptHost
      ⟨⟨[("cash$\n", none)], UTCTime.mk 2024 6 15 14 30 0⟩, [cmdDiffIndex, cmdDescribe]⟩).1 =
      "cash$-v20240615T1430" ∧
    (Release scriptHost (scriptRun [("", none), ("", some (Error.other "no tag")),
        ("cash$\n", none)] (UTCTime.mk 2024 6 15 14 30 0))).2.issued =
      [cmdDiffIndex, cmdDescribe, cmdBranch, ["git", "tag", "cashv20240615T1430"], cmdPush] ∧
    cmdTag "cash$-v20240615T1430" ∉
      (Release scriptHost (scriptRun [("", none), ("", some (Error.other "no tag")),
        ("cash$\n", none)] (UTCTime.mk 2024 6 15 14 30 0))).2.issued ∧
    (generateVersion (scriptHostIn (fun k => if k = "VERSION" then some "9.9" else none))
      ⟨⟨[("rel-$VERSION\n", none)], UTCTime.mk 2024 6 15 14 30 0⟩,
        [cmdDiffIndex, cmdDescribe]⟩).1 = "rel-$VERSION-v20240615T1430" ∧
    (Release (scriptHostIn (fun k => if k = "VERSION" then some "9.9" else none))
      (scriptRun [("", none), ("", some (Error.other "no tag")), ("rel-$VERSION\n", none)]
        (UTCTime.mk 2024 6 15 14 30 0))).2.issued =
      [cmdDiffIndex, cmdDescribe, cmdBranch, ["git", "tag", "rel-9.9-v20240615T1430"],
        cmdPush] := by
  decide

/-- C8 (amended): when the tree is clean and the exact-tag query fails,
`Release` runs the branch query of `generateVersion` and then one command
`git tag w`, where `w` is the value `v` of `generateVersion` whenever `v`
contains no dollar sign; if that command fails with error `e`, `Release`
returns `e` itself and `git tag w` is the last command issued: `git push --tags`
never runs. -/
theorem release_tag_failure {σ : Type} (h : Host σ) (r : Run σ)
    (hd : (h.exec r.world cmdDiffIndex).1.2 = none)
    (ht : (h.exec (h.exec r.world cmdDiffIndex).2 cmdDescribe).1.2 ≠ none) :
    let v := generateVersion h
      ⟨(h.exec (h.exec r.world cmdDiffIndex).2 cmdDescribe).2,
        r.issued ++ [cmdDiffIndex, cmdDescribe]⟩
    ∃ w : String, ('$' ∉ v.1.data → w = v.1) ∧
      (r.issued ++ [cmdDiffIndex, cmdDescribe, cmdBranch, cmdTag w]) <+:
        (Release h r).2.issued ∧
      ∀ e, (h.exec v.2.world (cmdTag w)).1.2 = some e →
        (Release h r).1 = some e ∧
        (Release h r).2.issued =
          r.issued ++ [cmdDiffIndex, cmdDescribe, cmdBranch, cmdTag w] ∧
        cmdPush ∉ (r.issued ++ [cmdDiffIndex, cmdDescribe, cmdBranch, cmdTag w]).drop
          r.issued.length := by
  intro v
  refine ⟨Expand h.env v.1, fun hv => expand_of_no_dollar h.env v.1 hv, ?_, ?_⟩
  all_goals
    have hv : v.2.issued = r.issued ++ [cmdDiffIndex, cmdDescribe, cmdBranch] := by
      show (generateVersion h _).2.issued = _
      rw [generateVersion_run]; simp
    have hr := release_untagged h r hd ht
    simp only [] at hr
    change Release h r = (match (shRun h (cmdTag v.1) v.2).1 with
        | some err => (some err, (shRun h (cmdTag v.1) v.2).2)
        | none => shRun h cmdPush (shRun h (cmdTag v.1) v.2).2) at hr
    rw [shRun_cmdTag] at hr
    simp only [hv] at hr
  · rw [hr]
    cases he : (h.exec v.2.world (cmdTag (Expand h.env v.1))).1.2 with
    | some err => simp
    | none =>
      simp only [shRun_cmdPush]
      exact ⟨[cmdPush], by simp⟩
  · intro e he
    rw [hr, he]
    refine ⟨rfl, by simp, ?_⟩
    rw [List.drop_left]
    simp only [List.mem_cons, List.mem_singleton, List.not_mem_nil, or_false, not_or]
    refine ⟨by decide, by decide, by decide, ?_⟩
    simp [cmdPush, cmdTag]

theorem release_tag_failure_witness :
    (Release scriptHost (scriptRun [("", none), ("", some (Error.other "no tag")),
        ("dev\n", none), ("", some (Error.other "tag exists"))]
        (UTCTime.mk 2024 6 15 14 30 0))).1 = some (Error.other "tag exists") ∧
    (Release scriptHost (scriptRun [("", none), ("", some (Error.other "no tag")),
        ("dev\n", none), ("", some (Error.other "tag exists"))]
        (UTCTime.mk 2024 6 15 14 30 0))).2.issued =
      [cmdDiffIndex, cmdDescribe, cmdBranch, cmdTag "dev-v20240615T1430"] := by
  obtain ⟨w, hw, _, he⟩ := release_tag_failure scriptHost
    (scriptRun [("", none), ("", some (Error.other "no tag")), ("dev\n", none),
      ("", some (Error.other "tag exists"))] (UTCTime.mk 2024 6 15 14 30 0)) rfl (by decide)
  have hw2 : w = "dev-v20240615T1430" := hw (by decide)
  subst hw2
  exact ⟨(he (Error.other "tag exists") rfl).1, (he (Error.other "tag exists") rfl).2.1⟩

/-- C9: with `ts` the clock value formatted by `timeStampFormat`,
`generateVersion` returns `ts` alone when the branch query fails or its trimmed
output is `main`, and the trimmed output, a dash and `ts` for every other
output. -/
theorem generateVersion_value {σ : Type} (h : Host σ) (r : Run σ) :
    (generateVersion h r).1 =
      if (h.exec r.world cmdBranch).1.2 ≠ none ∨
          TrimSpace (h.exec r.world cmdBranch).1.1 = "main" then
        (h.now (h.exec r.world cmdBranch).2).Format timeStampFormat
      else
        TrimSpace (h.exec r.world cmdBranch).1.1 ++ "-" ++
          (h.now (h.exec r.world cmdBranch).2).Format timeStampFormat := by
  obtain ⟨h1, h2, h3⟩ := getCurrentBranch_eq h r
  unfold generateVersion
  simp only [h1, h2, h3]
  cases he : (h.exec r.world cmdBranch).1.2 with
  | some e => simp [mainBranch]
  | none =>
    by_cases hm : TrimSpace (h.exec r.world cmdBranch).1.1 = "main"
    · simp [mainBranch, hm]
    · simp [mainBranch, hm]

/-- C10 (as stated, refuted): at the valid UTC clock time 10000-01-01 00:00,
`generateVersion` on the branch `main` returns `v100000101T0000`, which has a
5-digit year and 15 characters. -/
theorem generateVersion_year_overflow :
    (UTCTime.mk 10000 1 1 0 0 0).Valid ∧
    (generateVersion scriptHost (scriptRun [("main\n", none)] (UTCTime.mk 10000 1 1 0 0 0))).1 =
      "v100000101T0000" ∧
    (generateVersion scriptHost
      (scriptRun [("main\n", none)] (UTCTime.mk 10000 1 1 0 0 0))).1.length = 15 := by
  decide

/-- C10 (amended): for every valid UTC clock time whose year is between 0 and
9999, `generateVersion` on the branch `main` (the branch query fails or yields
`main`) returns exactly 14 characters: `v`, the four decimal digits of the year,
the two digits of the month, the two digits of the day, `T`, the two digits of
the hour and the two digits of the minute, with no branch prefix and no
seconds. -/
theorem generateVersion_main_timestamp {σ : Type} (h : Host σ) (r : Run σ)
    (hb : (h.exec r.world cmdBranch).1.2 ≠ none ∨
      TrimSpace (h.exec r.world cmdBranch).1.1 = "main")
    (hv : (h.now (h.exec r.world cmdBranch).2).Valid)
    (hy0 : 0 ≤ (h.now (h.exec r.world cmdBranch).2).Year)
    (hy : (h.now (h.exec r.world cmdBranch).2).Year ≤ 9999) :
    let t := h.now (h.exec r.world cmdBranch).2
    (generateVersion h r).1 = String.mk
      ['v', digitChar (t.Year.toNat / 1000), digitChar (t.Year.toNat / 100),
        digitChar (t.Year.toNat / 10), digitChar t.Year.toNat,
        digitChar (t.Month / 10), digitChar t.Month,
        digitChar (t.Day / 10), digitChar t.Day,
        'T', digitChar (t.Hour / 10), digitChar t.Hour,
        digitChar (t.Minute / 10), digitChar t.Minute] ∧
    (generateVersion h r).1.length = 14 := by
  intro t
  have hv2 : t.Valid := hv
  have hy2 : 0 ≤ t.Year := hy0
  have hy3 : t.Year ≤ 9999 := hy
  obtain ⟨hm1, hm2, hd1, hd2, hh, hmi, _⟩ := hv2
  have hday : t.Day ≤ 31 := by
    refine le_trans hd2 ?_
    unfold daysIn
    split
    · split <;> decide
    · split <;> decide
  have hval : (generateVersion h r).1 = t.Format timeStampFormat := by
    obtain ⟨h1, h2, h3⟩ := getCurrentBranch_eq h r
    unfold generateVersion
    simp only [h1, h2, h3]
    cases he : (h.exec r.world cmdBranch).1.2 with
    | some e => simp [mainBranch, t]
    | none =>
      have hm : TrimSpace (h.exec r.world cmdBranch).1.1 = "main" := by
        rcases hb with hb | hb
        · exact absurd he hb
        · exact hb
      simp [mainBranch, hm, t]
  have hdata : (t.Format timeStampFormat).data =
      ['v', digitChar (t.Year.toNat / 1000), digitChar (t.Year.toNat / 100),
        digitChar (t.Year.toNat / 10), digitChar t.Year.toNat,
        digitChar (t.Month / 10), digitChar t.Month,
        digitChar (t.Day / 10), digitChar t.Day,
        'T', digitChar (t.Hour / 10), digitChar t.Hour,
        digitChar (t.Minute / 10), digitChar t.Minute] := by
    rw [format_timeStamp, appendInt_four t.Year hy2 hy3,
      appendInt_two t.Month (by omega), appendInt_two t.Day (by omega),
      appendInt_two t.Hour (by omega), appendInt_two t.Minute (by omega)]
    rfl
  have hstr : (generateVersion h r).1 = String.mk (t.Format timeStampFormat).data := by
    rw [hval]
  rw [hstr, hdata]
  exact ⟨rfl, rfl⟩

theorem generateVersion_main_timestamp_witness :
    (generateVersion scriptHost
        (scriptRun [("main\n", none)] (UTCTime.mk 2024 6 15 14 30 59))).1 = "v20240615T1430" ∧
    (generateVersion scriptHost
        (scriptRun [("main\n", none)] (UTCTime.mk 2024 6 15 14 30 59))).1.length = 14 :=
  generateVersion_main_timestamp scriptHost
    (scriptRun [("main\n", none)] (UTCTime.mk 2024 6 15 14 30 59))
    (Or.inr (by decide)) (by decide) (by decide) (by decide)

end Tasks
